import Mathlib

/-!
Verification of the chunking-and-orchestration pipeline of
`src/streamlit-app-chunking.py` via a shallow embedding.

Strings from the Python side (`str`) are modelled as `List Char`; Python's
`str.strip()` becomes `pyStrip`.  Python `float` arithmetic on sizes and
progress fractions is modelled exactly over `ℚ` (the quantities involved are
ratios of machine integers, and the claims concern the algorithmic structure,
not rounding of IEEE doubles).  A raising Python function is modelled as an
`Option`/`Except` returning function, `none`/`.error` standing for the raise.
The remote Whisper call is an oracle: each segment's call outcome is an input
of type `Except RemoteError (List Char)`.
-/

set_option linter.unusedVariables false

/-- Python `str` is modelled as a list of characters. -/
abbrev PyStr := List Char

/-- Line 21: `MAX_UPLOAD_SIZE_MB = 200` (the absolute upload ceiling, in MB). -/
def MAX_UPLOAD_SIZE_MB : ℕ := 200

/-- Line 22: `MAX_SEGMENT_SIZE_MB = 25` (the per-segment byte budget, in MB). -/
def MAX_SEGMENT_SIZE_MB : ℕ := 25

/-- Line 23: `BYTES_PER_MB = 1024 * 1024`. -/
def BYTES_PER_MB : ℕ := 1024 * 1024

/-- Python's `s.strip()`: drop leading and trailing whitespace.  Embedded over
`List Char` by dropping whitespace from the front, reversing, dropping
whitespace from the (now leading) tail end, and reversing back. -/
def pyStrip (s : PyStr) : PyStr :=
  ((s.dropWhile Char.isWhitespace).reverse.dropWhile Char.isWhitespace).reverse

/-- A planned segment: `index`, time range `[startMs, endMs)`.  In the source a
segment is the slice `audio[start_ms:end_ms]` produced for loop index `i`
(lines 122-126). -/
structure SegmentSpec where
  index : ℕ
  startMs : ℕ
  endMs : ℕ
  deriving Repr, DecidableEq

/-- Lines 110-114: `segment_size_ms = int((segment_size_mb * BYTES_PER_MB) /
bytes_per_ms)` followed by `segment_size_ms = min(segment_size_ms,
duration_ms)`.  `segment_size_bytes` is `segment_size_mb * BYTES_PER_MB`
already in bytes; Python's `int()` on the nonnegative float quotient is the
floor.  Note the source has no lower clamp: the result can be `0`. -/
def segment_size_ms (duration_ms : ℕ) (bytes_per_ms : ℚ) (segment_size_bytes : ℕ) : ℕ :=
  min (⌊(segment_size_bytes : ℚ) / bytes_per_ms⌋.toNat) duration_ms

/-- The segment-duration formula as the spec describes it (section 4.2):
floor, clamped above by `totalDurationMs` and below by a minimum of 1 ms.
Spec-side definition, kept only to compare against `segment_size_ms`. -/
def spec_segment_size_ms (duration_ms : ℕ) (bytes_per_ms : ℚ) (segment_size_bytes : ℕ) : ℕ :=
  max (min (⌊(segment_size_bytes : ℚ) / bytes_per_ms⌋.toNat) duration_ms) 1

/-- Lines 107-133 of `split_audio_file`, boundary computation: computes
`segment_size_ms`, then `segments_count = math.ceil(duration_ms /
segment_size_ms)` and for each `i` the slice `[i*segment_size_ms,
min((i+1)*segment_size_ms, duration_ms))`.  When `segment_size_ms = 0` the
`math.ceil(duration_ms / segment_size_ms)` division raises
`ZeroDivisionError`, modelled as `none`.  `math.ceil` of the exact quotient of
naturals `d / sz` is `(d + sz - 1) / sz` in natural division. -/
def split_audio_file (duration_ms : ℕ) (bytes_per_ms : ℚ) (segment_size_bytes : ℕ) :
    Option (List SegmentSpec) :=
  let sz := segment_size_ms duration_ms bytes_per_ms segment_size_bytes
  if sz = 0 then none
  else
    some ((List.range ((duration_ms + sz - 1) / sz)).map fun i =>
      ⟨i, i * sz, min ((i + 1) * sz) duration_ms⟩)

/-- The error categories of the remote transcription boundary (spec section 6);
the source catches them uniformly with `except Exception` (line 156). -/
inductive RemoteError
  | authError
  | sizeRejected
  | malformedAudio
  | transientNetwork
  | other
  deriving Repr, DecidableEq

/-- Outcome of one remote `client.audio.transcriptions.create` call:
`.ok text` or a raised error. -/
abbrev RemoteResult := Except RemoteError PyStr

/-- Lines 148-158, `transcribe_segment`: returns the transcript text on
success; on any exception from the remote call, reports the error
(`st.error`) and returns the empty string so as not to interrupt the whole
process. -/
def transcribe_segment (result : RemoteResult) : PyStr :=
  match result with
  | .ok t => t
  | .error _ => []

/-- Whether a segment's remote call failed (and so was reported via
`st.error` inside `transcribe_segment`, line 157). -/
def segmentFailed (result : RemoteResult) : Bool :=
  match result with
  | .ok _ => false
  | .error _ => true

/-- Lines 219-226 (and 250-271): the accumulation `full_transcript +=
segment_transcript + " "` run over a list of per-segment remote outcomes,
starting from the given current value of `full_transcript`. -/
def full_transcript_from (init : PyStr) (outcomes : List RemoteResult) : PyStr :=
  outcomes.foldl (fun acc r => acc ++ transcribe_segment r ++ [' ']) init

/-- Number of segments whose remote call failed in a loop over `outcomes`:
one `st.error` report is emitted (line 157) per failed segment. -/
def failed_segment_count (outcomes : List RemoteResult) : ℕ :=
  outcomes.countP (fun r => segmentFailed r)

/-- Lines 242-277, the fallback block: it receives whatever value
`full_transcript` held when the primary block raised, reassigns
`full_transcript = ""` (line 250), then accumulates the fallback segments'
fragments. -/
def fallbackBlockTranscript (full_transcript : PyStr) (outcomes : List RemoteResult) : PyStr :=
  let full_transcript : PyStr := []
  full_transcript_from full_transcript outcomes

/-- Line 247: `segment_length_ms = 5 * 60 * 1000` — the fallback's fixed
wall-clock segment length (5 minutes in ms). -/
def segment_length_ms : ℕ := 5 * 60 * 1000

/-- Lines 246-253, the fallback split plan: fixed-length segments of
`segment_length_ms`, `segments_count = math.ceil(duration_ms /
segment_length_ms)`, boundaries `[i*len, min((i+1)*len, duration_ms))`.
It takes no byte-budget argument at all: the budget is ignored. -/
def fallbackPlan (duration_ms : ℕ) : List SegmentSpec :=
  (List.range ((duration_ms + segment_length_ms - 1) / segment_length_ms)).map
    fun i => ⟨i, i * segment_length_ms, min ((i + 1) * segment_length_ms) duration_ms⟩

/-- The boundary shape shared by both split loops (lines 122-126 and
251-253): `segments_count = ceil(duration_ms / sz)` segments
`[i*sz, min((i+1)*sz, duration_ms))`.  `split_audio_file` instantiates it
with the computed `segment_size_ms`, the fallback with the fixed
`segment_length_ms`. -/
def plan_segments (duration_ms sz : ℕ) : List SegmentSpec :=
  (List.range ((duration_ms + sz - 1) / sz)).map
    fun i => ⟨i, i * sz, min ((i + 1) * sz) duration_ms⟩

/-- Line 163: `file_size_mb = uploaded_file.size / BYTES_PER_MB` (true float
division, modelled exactly in `ℚ`). -/
def file_size_mb (sizeBytes : ℕ) : ℚ :=
  (sizeBytes : ℚ) / (BYTES_PER_MB : ℚ)

/-- Terminal failures of one run of the pipeline. -/
inductive RunError
  /-- Line 165-167: `file_size_mb > MAX_UPLOAD_SIZE_MB`, rejected pre-flight. -/
  | oversize
  /-- Lines 198-203: the single-shot remote call is not wrapped in
  `transcribe_segment`; its exception propagates to the outer handler
  (line 302) and the run fails. -/
  | singleShotRemote (e : RemoteError)
  /-- Lines 278-280: the fallback block also raised; `st.stop`. -/
  | bothSplitsFailed
  deriving Repr, DecidableEq

/-- What one completed run yields: the final (stripped) transcript, and the
number of per-segment failures that were recorded via `st.error` during the
transcription loop (the spec's `failedSegmentCount`). -/
structure RunResult where
  transcript : PyStr
  failedSegmentCount : ℕ
  deriving Repr, DecidableEq

/-- The environment of one run: the request size plus the oracle outcomes of
every external call the run may make.
`primaryFail = none` means the primary try-block (lines 212-236) completes;
`primaryFail = some pre` means it raises (in practice from
`split_audio_file`, or from a failing `open` mid-loop) after the loop has
completed the iterations whose remote outcomes are `pre`.
`fallbackFail = true` means the fallback block (lines 242-277) raises. -/
structure RunEnv where
  sizeBytes : ℕ
  singleOutcome : RemoteResult
  primaryFail : Option (List RemoteResult)
  primaryOutcomes : List RemoteResult
  fallbackFail : Bool
  fallbackOutcomes : List RemoteResult

/-- The orchestrator (lines 161-300): pre-flight size ceiling check
(165-167), single-shot path when `file_size_mb <= MAX_SEGMENT_SIZE_MB`
(194-206), otherwise the segmented path (207-280) with its one fallback,
ending with `full_transcript.strip()` (line 283). -/
def run (env : RunEnv) : Except RunError RunResult :=
  if file_size_mb env.sizeBytes > (MAX_UPLOAD_SIZE_MB : ℚ) then
    .error .oversize
  else if file_size_mb env.sizeBytes ≤ (MAX_SEGMENT_SIZE_MB : ℚ) then
    match env.singleOutcome with
    | .error e => .error (.singleShotRemote e)
    | .ok t => .ok ⟨pyStrip t, 0⟩
  else
    match env.primaryFail with
    | none =>
      .ok ⟨pyStrip (full_transcript_from [] env.primaryOutcomes),
           failed_segment_count env.primaryOutcomes⟩
    | some pre =>
      if env.fallbackFail then
        .error .bothSplitsFailed
      else
        .ok ⟨pyStrip (fallbackBlockTranscript (full_transcript_from [] pre) env.fallbackOutcomes),
             failed_segment_count env.fallbackOutcomes⟩

/-- Which split strategies a run attempts, in order.  The segmented path
always tries `split_audio_file` first (line 213); the fallback block is
entered only from that try-block's `except` (lines 237-242), and the fallback
block's own `except` stops the run (278-280) — there is no third attempt. -/
inductive SplitAttempt
  | primary
  | fallback
  deriving Repr, DecidableEq

/-- The sequence of split attempts a run makes, per the nested try/except
structure of lines 212-280. -/
def splitAttempts (env : RunEnv) : List SplitAttempt :=
  if file_size_mb env.sizeBytes > (MAX_UPLOAD_SIZE_MB : ℚ) then []
  else if file_size_mb env.sizeBytes ≤ (MAX_SEGMENT_SIZE_MB : ℚ) then []
  else
    match env.primaryFail with
    | none => [.primary]
    | some _ => [.primary, .fallback]

/-- Observable per-iteration events of the transcription loops, for the
artifact-lifetime claims. -/
inductive LoopEvent
  | transcribeAttempt (i : ℕ)
  | errorReported (i : ℕ)
  | artifactCreated (i : ℕ)
  | artifactRemoved (i : ℕ)
  deriving Repr, DecidableEq

/-- One iteration of the primary loop (lines 220-232): the transcription
attempt (which completes on both outcomes, reporting the error on failure),
then unconditionally `os.remove(segment_path)`.  The artifact itself was
created earlier, inside `split_audio_file` (line 130). -/
def primaryIterationEvents (i : ℕ) (r : RemoteResult) : List LoopEvent :=
  [.transcribeAttempt i]
    ++ (if segmentFailed r then [.errorReported i] else [])
    ++ [.artifactRemoved i]

/-- One iteration of the fallback loop (lines 251-277): export the segment
(`segment.export`, line 263), attempt transcription, then unconditionally
`os.remove(temp_segment_path)`. -/
def fallbackIterationEvents (i : ℕ) (r : RemoteResult) : List LoopEvent :=
  [.artifactCreated i, .transcribeAttempt i]
    ++ (if segmentFailed r then [.errorReported i] else [])
    ++ [.artifactRemoved i]

/-- Events of the primary loop from index `i` on, mirroring
`for i, segment_path in enumerate(segment_paths)`. -/
def primaryLoopEventsFrom (i : ℕ) (outcomes : List RemoteResult) : List LoopEvent :=
  match outcomes with
  | [] => []
  | r :: rest => primaryIterationEvents i r ++ primaryLoopEventsFrom (i + 1) rest

/-- All events of the primary transcription loop (lines 220-232). -/
def primaryLoopEvents (outcomes : List RemoteResult) : List LoopEvent :=
  primaryLoopEventsFrom 0 outcomes

/-- Events of the fallback loop from index `i` on (`for i in
range(segments_count)`). -/
def fallbackLoopEventsFrom (i : ℕ) (outcomes : List RemoteResult) : List LoopEvent :=
  match outcomes with
  | [] => []
  | r :: rest => fallbackIterationEvents i r ++ fallbackLoopEventsFrom (i + 1) rest

/-- All events of the fallback transcription loop (lines 251-277). -/
def fallbackLoopEvents (outcomes : List RemoteResult) : List LoopEvent :=
  fallbackLoopEventsFrom 0 outcomes

/-- Line 221: the progress value emitted at the top of primary-loop iteration
`i` of `n`: `0.1 + (i / total_segments) * 0.8`. -/
def primaryLoopProgress (n : ℕ) : List ℚ :=
  (List.range n).map fun (i : ℕ) => 1/10 + ((i : ℚ) / (n : ℚ)) * (8/10)

/-- Lines 258 and 266: the two progress values emitted in fallback-loop
iteration `i` of `m`: `0.1 + (i / segments_count) * 0.4` before the export
and `0.5 + (i / segments_count) * 0.4` before the transcription. -/
def fallbackLoopProgress (m : ℕ) : List ℚ :=
  ((List.range m).map fun (i : ℕ) =>
    [1/10 + ((i : ℚ) / (m : ℚ)) * (4/10), 1/2 + ((i : ℚ) / (m : ℚ)) * (4/10)]).flatten

/-- Progress values of a single-shot run, in emission order: `st.progress(0)`
(line 170), `0.2` (line 196), `1.0` (line 206), `1.0` (line 286). -/
def singleShotTrace : List ℚ := [0, 1/5, 1, 1]

/-- Progress values of a segmented run whose primary path completes with `n`
segments: `0` (line 170), `0.1` (line 210), the loop values (line 221),
`0.9` (line 234), `1.0` (line 286). -/
def primaryPathTrace (n : ℕ) : List ℚ :=
  [0, 1/10] ++ primaryLoopProgress n ++ [9/10, 1]

/-- Progress values of a run that enters the fallback: `0` (line 170), `0.1`
(line 210), the first `k` primary-loop emissions (line 221) made before the
primary block raised (out of `n` planned segments), then the fallback loop's
emissions for its `m` segments (lines 258, 266), then `1.0` (line 286). -/
def fallbackPathTrace (k n m : ℕ) : List ℚ :=
  [0, 1/10] ++ (primaryLoopProgress n).take k ++ fallbackLoopProgress m ++ [1]

/-! Helper lemmas. -/

/-- The accumulation loop is the concatenation of the per-fragment pieces. -/
lemma full_transcript_from_eq (outcomes : List RemoteResult) (init : PyStr) :
    full_transcript_from init outcomes
      = init ++ (outcomes.map fun r => transcribe_segment r ++ [' ']).flatten := by
  induction outcomes generalizing init with
  | nil => simp [full_transcript_from]
  | cons r rest ih =>
    show full_transcript_from (init ++ transcribe_segment r ++ [' ']) rest = _
    rw [ih]
    simp [List.append_assoc]

/-- `pyStrip` returns the empty string exactly when every character is
whitespace. -/
lemma pyStrip_eq_nil_iff (s : PyStr) :
    pyStrip s = [] ↔ ∀ c ∈ s, c.isWhitespace := by
  unfold pyStrip
  rw [List.reverse_eq_nil_iff, List.dropWhile_eq_nil_iff]
  constructor
  · intro h c hc
    have hsplit : s.takeWhile Char.isWhitespace ++ s.dropWhile Char.isWhitespace = s :=
      List.takeWhile_append_dropWhile Char.isWhitespace s
    rw [← hsplit] at hc
    rcases List.mem_append.mp hc with h1 | h2
    · exact List.mem_takeWhile_imp h1
    · exact h c (List.mem_reverse.mpr h2)
  · intro h c hc
    exact h c ((List.dropWhile_sublist _).subset (List.mem_reverse.mp hc))

/-- Appending a single trailing space does not change the stripped string. -/
lemma pyStrip_append_space (s : PyStr) : pyStrip (s ++ [' ']) = pyStrip s := by
  unfold pyStrip
  rw [List.dropWhile_append]
  by_cases h : (s.dropWhile Char.isWhitespace).isEmpty
  · rw [if_pos h]
    rw [List.isEmpty_iff] at h
    rw [h]
    rfl
  · rw [if_neg h]
    rw [List.reverse_append]
    show (((' ' :: (s.dropWhile Char.isWhitespace).reverse).dropWhile Char.isWhitespace)).reverse = _
    rw [List.dropWhile_cons_of_pos (by decide)]

/-- The upload-ceiling comparison of line 165, reduced to bytes. -/
lemma file_size_mb_gt_iff (s : ℕ) :
    file_size_mb s > (MAX_UPLOAD_SIZE_MB : ℚ) ↔ MAX_UPLOAD_SIZE_MB * BYTES_PER_MB < s := by
  unfold file_size_mb MAX_UPLOAD_SIZE_MB BYTES_PER_MB
  rw [gt_iff_lt, lt_div_iff₀ (by norm_num)]
  norm_cast

/-- The single-shot comparison of line 194, reduced to bytes. -/
lemma file_size_mb_le_iff (s : ℕ) :
    file_size_mb s ≤ (MAX_SEGMENT_SIZE_MB : ℚ) ↔ s ≤ MAX_SEGMENT_SIZE_MB * BYTES_PER_MB := by
  unfold file_size_mb MAX_SEGMENT_SIZE_MB BYTES_PER_MB
  rw [div_le_iff₀ (by norm_num)]
  norm_cast

/-! Claim theorems. -/

/-- C1: for every run, the final transcript equals the index-ordered
concatenation of the per-segment fragment texts (a failed segment
contributing the empty string, not being omitted), with a single separating
space appended after each fragment, trimmed of leading and trailing
whitespace.  Stated for the accumulation loop itself, for the two segmented
paths of `run`, and for the single-shot path (whose one fragment carries no
appended space in the code; stripping makes the two readings equal). -/
theorem transcript_is_index_ordered_concat :
    (∀ outcomes : List RemoteResult,
      full_transcript_from [] outcomes
        = (outcomes.map fun r => transcribe_segment r ++ [' ']).flatten) ∧
    (∀ env : RunEnv,
      ¬ file_size_mb env.sizeBytes > (MAX_UPLOAD_SIZE_MB : ℚ) →
      ¬ file_size_mb env.sizeBytes ≤ (MAX_SEGMENT_SIZE_MB : ℚ) →
      env.primaryFail = none →
      run env = .ok ⟨pyStrip ((env.primaryOutcomes.map fun r =>
          transcribe_segment r ++ [' ']).flatten),
        failed_segment_count env.primaryOutcomes⟩) ∧
    (∀ (env : RunEnv) (pre : List RemoteResult),
      ¬ file_size_mb env.sizeBytes > (MAX_UPLOAD_SIZE_MB : ℚ) →
      ¬ file_size_mb env.sizeBytes ≤ (MAX_SEGMENT_SIZE_MB : ℚ) →
      env.primaryFail = some pre →
      env.fallbackFail = false →
      run env = .ok ⟨pyStrip ((env.fallbackOutcomes.map fun r =>
          transcribe_segment r ++ [' ']).flatten),
        failed_segment_count env.fallbackOutcomes⟩) ∧
    (∀ (env : RunEnv) (t : PyStr),
      ¬ file_size_mb env.sizeBytes > (MAX_UPLOAD_SIZE_MB : ℚ) →
      file_size_mb env.sizeBytes ≤ (MAX_SEGMENT_SIZE_MB : ℚ) →
      env.singleOutcome = .ok t →
      run env = .ok ⟨pyStrip (t ++ [' ']), 0⟩) := by
  refine ⟨fun outcomes => by simpa using full_transcript_from_eq outcomes [], ?_, ?_, ?_⟩
  · intro env h1 h2 h3
    simp only [run, h3]
    rw [if_neg h1, if_neg h2]
    rw [full_transcript_from_eq]
    rfl
  · intro env pre h1 h2 h3 h4
    simp only [run, h3, fallbackBlockTranscript]
    rw [if_neg h1, if_neg h2, if_neg (by rw [h4]; exact Bool.false_ne_true)]
    rw [full_transcript_from_eq]
    rfl
  · intro env t h1 h2 h3
    simp only [run, h3]
    rw [if_neg h1, if_pos h2, pyStrip_append_space]

/-- C1 witness: a concrete three-segment run (sizes in bytes; the middle
segment fails) evaluated through the theorem. -/
theorem transcript_is_index_ordered_concat_witness :
    run ⟨26 * BYTES_PER_MB, .ok [],  none,
        [.ok ['o', 'l', 'a'], .error .other, .ok ['m', 'u', 'n', 'd', 'o']], false, []⟩
      = .ok ⟨pyStrip ((([.ok ['o', 'l', 'a'], .error .other,
            .ok ['m', 'u', 'n', 'd', 'o']] : List RemoteResult).map fun r =>
          transcribe_segment r ++ [' ']).flatten),
        failed_segment_count [.ok ['o', 'l', 'a'], .error .other,
          .ok ['m', 'u', 'n', 'd', 'o']]⟩ :=
  transcript_is_index_ordered_concat.2.1
    ⟨26 * BYTES_PER_MB, .ok [], none,
      [.ok ['o', 'l', 'a'], .error .other, .ok ['m', 'u', 'n', 'd', 'o']], false, []⟩
    (by rw [file_size_mb_gt_iff]; decide)
    (by rw [file_size_mb_le_iff]; decide)
    rfl

/-- C4: every remote error category is caught inside `transcribe_segment` and
turned into the empty string, and a failing segment leaves the surrounding
loop intact: the accumulated transcript around an erroring segment is the
accumulation of the segments before it, the lone separating space the failed
segment contributes, and the accumulation of the segments after it. -/
theorem transcribe_segment_swallows_remote_errors :
    (∀ e : RemoteError, transcribe_segment (.error e) = []) ∧
    (∀ (pre post : List RemoteResult) (e : RemoteError),
      full_transcript_from [] (pre ++ .error e :: post)
        = full_transcript_from [] pre ++ ' ' :: full_transcript_from [] post) := by
  refine ⟨fun e => rfl, ?_⟩
  intro pre post e
  rw [full_transcript_from_eq, full_transcript_from_eq, full_transcript_from_eq]
  simp [transcribe_segment]

/-- C10: the fallback block reassigns `full_transcript` to the empty string
(line 250), so whatever was accumulated before the primary block raised is
discarded, and the run's result does not depend on the fragments produced
before the failure. -/
theorem fallback_resets_accumulated_transcript :
    (∀ (acc : PyStr) (fb : List RemoteResult),
      fallbackBlockTranscript acc fb = full_transcript_from [] fb) ∧
    (∀ (env : RunEnv) (pre pre' : List RemoteResult),
      run { env with primaryFail := some pre } = run { env with primaryFail := some pre' }) := by
  refine ⟨fun acc fb => rfl, ?_⟩
  intro env pre pre'
  unfold run
  rfl

/-! Arithmetic of the planned boundaries. -/

lemma plan_segments_length (d sz : ℕ) :
    (plan_segments d sz).length = (d + sz - 1) / sz := by
  simp [plan_segments]

lemma plan_segments_get (d sz i : ℕ) (h : i < (plan_segments d sz).length) :
    (plan_segments d sz).get ⟨i, h⟩ = ⟨i, i * sz, min ((i + 1) * sz) d⟩ := by
  simp [plan_segments, List.get_eq_getElem]

lemma plan_segments_cnt (d sz : ℕ) (hsz : 0 < sz) (hd : 0 < d) :
    (d + sz - 1) / sz = (d - 1) / sz + 1 := by
  rw [show d + sz - 1 = (d - 1) + sz by omega, Nat.add_div_right _ hsz]

lemma plan_segments_mul_lt (d sz j : ℕ) (hsz : 0 < sz) (hd : 0 < d)
    (hj : j < (d + sz - 1) / sz) : j * sz < d := by
  rw [plan_segments_cnt d sz hsz hd] at hj
  have h1 : j ≤ (d - 1) / sz := by omega
  have h2 : j * sz ≤ (d - 1) / sz * sz := Nat.mul_le_mul_right sz h1
  have h3 : (d - 1) / sz * sz ≤ d - 1 := Nat.div_mul_le_self _ _
  omega

lemma plan_segments_covers (d sz : ℕ) (hsz : 0 < sz) (hd : 0 < d) (t : ℕ) (ht : t < d) :
    t / sz < (d + sz - 1) / sz ∧ t / sz * sz ≤ t ∧ t < (t / sz + 1) * sz := by
  refine ⟨?_, Nat.div_mul_le_self t sz, ?_⟩
  · rw [plan_segments_cnt d sz hsz hd]
    have h1 : t / sz ≤ (d - 1) / sz := Nat.div_le_div_right (by omega)
    omega
  · have h1 := Nat.div_add_mod t sz
    have h2 : t % sz < sz := Nat.mod_lt t hsz
    have h3 : (t / sz + 1) * sz = sz * (t / sz) + sz := by ring
    omega

/-- Concrete sizing of the spec's worked example: a 100000 ms source at
1000 bytes/ms with a 25000000-byte budget. -/
lemma segment_size_ms_example : segment_size_ms 100000 1000 25000000 = 25000 := by
  have hfloor : ⌊((25000000 : ℕ) : ℚ) / (1000 : ℚ)⌋ = 25000 := by norm_num
  unfold segment_size_ms
  rw [hfloor]
  decide

/-- C2 (amended): whenever `split_audio_file` produces a plan at all — that
is, whenever the computed `segment_size_ms` is nonzero — the produced
`SegmentSpec`s are indexed `0..n-1` in order, each is a nonempty subrange of
`[0, duration_ms)`, consecutive segments are contiguous, distinct segments do
not overlap, and the union of the ranges is exactly `[0, duration_ms)`.
(The unamended claim fails because for some positive inputs no plan is
produced at all; see the counterexample.) -/
theorem split_plan_partitions_duration :
    ∀ (duration_ms : ℕ) (bytes_per_ms : ℚ) (segment_size_bytes : ℕ) (segs : List SegmentSpec),
      split_audio_file duration_ms bytes_per_ms segment_size_bytes = some segs →
      0 < segs.length ∧
      (∀ i (h : i < segs.length), (segs.get ⟨i, h⟩).index = i) ∧
      (∀ s ∈ segs, s.startMs < s.endMs ∧ s.endMs ≤ duration_ms) ∧
      (∀ i (h : i + 1 < segs.length),
        (segs.get ⟨i, Nat.lt_of_succ_lt h⟩).endMs = (segs.get ⟨i + 1, h⟩).startMs) ∧
      (∀ i j (hi : i < segs.length) (hj : j < segs.length), i < j →
        (segs.get ⟨i, hi⟩).endMs ≤ (segs.get ⟨j, hj⟩).startMs) ∧
      (∀ t : ℕ, t < duration_ms ↔ ∃ s ∈ segs, s.startMs ≤ t ∧ t < s.endMs) := by
  intro d bpm bytes segs hsome
  by_cases h0 : segment_size_ms d bpm bytes = 0
  · exfalso
    simp only [split_audio_file] at hsome
    rw [if_pos h0] at hsome
    cases hsome
  · have hplan : segs = plan_segments d (segment_size_ms d bpm bytes) := by
      simp only [split_audio_file] at hsome
      rw [if_neg h0] at hsome
      exact (Option.some_inj.mp hsome).symm
    subst hplan
    set sz := segment_size_ms d bpm bytes with hszdef
    have hsz : 0 < sz := Nat.pos_of_ne_zero h0
    have hszd : sz ≤ d := by rw [hszdef]; exact Nat.min_le_right _ _
    have hd : 0 < d := lt_of_lt_of_le hsz hszd
    refine ⟨?_, ?_, ?_, ?_, ?_, ?_⟩
    · rw [plan_segments_length, plan_segments_cnt d sz hsz hd]
      exact Nat.succ_pos _
    · intro i h
      rw [plan_segments_get]
    · intro s hs
      simp only [plan_segments, List.mem_map, List.mem_range] at hs
      obtain ⟨i, hi, rfl⟩ := hs
      refine ⟨?_, ?_⟩
      · show i * sz < min ((i + 1) * sz) d
        refine lt_min ?_ (plan_segments_mul_lt d sz i hsz hd hi)
        have h3 : (i + 1) * sz = i * sz + sz := by ring
        omega
      · show min ((i + 1) * sz) d ≤ d
        exact Nat.min_le_right _ _
    · intro i h
      rw [plan_segments_get, plan_segments_get]
      show min ((i + 1) * sz) d = (i + 1) * sz
      exact Nat.min_eq_left (le_of_lt (plan_segments_mul_lt d sz (i + 1) hsz hd
        (by rw [plan_segments_length] at h; exact h)))
    · intro i j hi hj hij
      rw [plan_segments_get, plan_segments_get]
      calc min ((i + 1) * sz) d ≤ (i + 1) * sz := Nat.min_le_left _ _
        _ ≤ j * sz := Nat.mul_le_mul_right sz hij
    · intro t
      constructor
      · intro ht
        obtain ⟨hcnt, hle, hlt⟩ := plan_segments_covers d sz hsz hd t ht
        refine ⟨⟨t / sz, t / sz * sz, min ((t / sz + 1) * sz) d⟩, ?_, hle, lt_min hlt ht⟩
        simp only [plan_segments, List.mem_map, List.mem_range]
        exact ⟨t / sz, hcnt, rfl⟩
      · rintro ⟨s, hs, hs1, hs2⟩
        simp only [plan_segments, List.mem_map, List.mem_range] at hs
        obtain ⟨i, hi, rfl⟩ := hs
        exact lt_of_lt_of_le hs2 (Nat.min_le_right _ _)

/-- C2 counterexample: `duration_ms = 5000`, `bytes_per_ms = 4`,
`segment_size_bytes = 3` are all positive (valid), yet the split raises
(`int(3 / 4) = 0`, and `math.ceil(5000 / 0)` is a `ZeroDivisionError`), so no
sequence of segments is produced, let alone one covering `[0, 5000)`. -/
theorem split_plan_counterexample :
    0 < (5000 : ℕ) ∧ 0 < (4 : ℚ) ∧ 0 < (3 : ℕ) ∧ split_audio_file 5000 4 3 = none := by
  refine ⟨by norm_num, by norm_num, by norm_num, ?_⟩
  have h : segment_size_ms 5000 4 3 = 0 := by
    have hfloor : ⌊((3 : ℕ) : ℚ) / (4 : ℚ)⌋ = 0 := by norm_num
    unfold segment_size_ms
    rw [hfloor]
    decide
  simp only [split_audio_file]
  rw [if_pos h]

/-- C2 witness: the spec's worked example, evaluated through the theorem. -/
theorem split_plan_partitions_duration_witness :
    split_audio_file 100000 1000 25000000
      = some [⟨0, 0, 25000⟩, ⟨1, 25000, 50000⟩, ⟨2, 50000, 75000⟩, ⟨3, 75000, 100000⟩] ∧
    (∀ t : ℕ, t < 100000 ↔ ∃ s ∈ [(⟨0, 0, 25000⟩ : SegmentSpec), ⟨1, 25000, 50000⟩,
        ⟨2, 50000, 75000⟩, ⟨3, 75000, 100000⟩], s.startMs ≤ t ∧ t < s.endMs) := by
  have hsplit : split_audio_file 100000 1000 25000000
      = some [⟨0, 0, 25000⟩, ⟨1, 25000, 50000⟩, ⟨2, 50000, 75000⟩, ⟨3, 75000, 100000⟩] := by
    simp only [split_audio_file, segment_size_ms_example]
    decide
  exact ⟨hsplit,
    (split_plan_partitions_duration 100000 1000 25000000 _ hsplit).2.2.2.2.2⟩

/-- C3 (amended): the code computes `segment_size_ms = int(budget /
bytes_per_ms)` and clamps it above by `duration_ms`, but does NOT clamp it
below by 1 ms; when the clamped value is zero, the subsequent
`math.ceil(duration_ms / segment_size_ms)` raises and no plan is produced,
and otherwise the plan has exactly `ceil(duration_ms / segment_size_ms)`
segments (the least count that covers the duration). -/
theorem segment_sizing_formulas :
    ∀ (duration_ms : ℕ) (bytes_per_ms : ℚ) (segment_size_bytes : ℕ),
      segment_size_ms duration_ms bytes_per_ms segment_size_bytes
        = min ⌊(segment_size_bytes : ℚ) / bytes_per_ms⌋.toNat duration_ms ∧
      (segment_size_ms duration_ms bytes_per_ms segment_size_bytes = 0 →
        split_audio_file duration_ms bytes_per_ms segment_size_bytes = none) ∧
      (segment_size_ms duration_ms bytes_per_ms segment_size_bytes ≠ 0 →
        ∃ segs, split_audio_file duration_ms bytes_per_ms segment_size_bytes = some segs ∧
          segs.length = (duration_ms + segment_size_ms duration_ms bytes_per_ms segment_size_bytes - 1)
            / segment_size_ms duration_ms bytes_per_ms segment_size_bytes ∧
          duration_ms ≤ segs.length * segment_size_ms duration_ms bytes_per_ms segment_size_bytes ∧
          (segs.length - 1) * segment_size_ms duration_ms bytes_per_ms segment_size_bytes
            < duration_ms) := by
  intro d bpm bytes
  refine ⟨rfl, ?_, ?_⟩
  · intro h0
    simp only [split_audio_file]
    rw [if_pos h0]
  · intro h0
    set sz := segment_size_ms d bpm bytes with hszdef
    have hsz : 0 < sz := Nat.pos_of_ne_zero h0
    have hszd : sz ≤ d := by rw [hszdef]; exact Nat.min_le_right _ _
    have hd : 0 < d := lt_of_lt_of_le hsz hszd
    refine ⟨plan_segments d sz, ?_, plan_segments_length d sz, ?_, ?_⟩
    · simp only [split_audio_file]
      rw [if_neg h0]
      rfl
    · rw [plan_segments_length, plan_segments_cnt d sz hsz hd]
      have h1 := Nat.div_add_mod (d - 1) sz
      have h2 : (d - 1) % sz < sz := Nat.mod_lt _ hsz
      have h3 : ((d - 1) / sz + 1) * sz = sz * ((d - 1) / sz) + sz := by ring
      omega
    · rw [plan_segments_length, plan_segments_cnt d sz hsz hd]
      have h3 : (d - 1) / sz * sz ≤ d - 1 := Nat.div_mul_le_self _ _
      have h4 : (d - 1) / sz + 1 - 1 = (d - 1) / sz := rfl
      rw [h4]
      omega

/-- C3 counterexample: at `duration_ms = 1000`, `bytes_per_ms = 2`,
`segment_size_bytes = 1` the code's segment duration is `0` (no 1 ms lower
clamp exists in the code) while the spec's clamped formula gives `1`, and the
segment-count division consequently raises instead of seeing a 1 ms
duration. -/
theorem segment_sizing_no_lower_clamp :
    segment_size_ms 1000 2 1 = 0 ∧ spec_segment_size_ms 1000 2 1 = 1 ∧
    split_audio_file 1000 2 1 = none := by
  have hfloor : ⌊((1 : ℕ) : ℚ) / (2 : ℚ)⌋ = 0 := by norm_num
  have h : segment_size_ms 1000 2 1 = 0 := by
    unfold segment_size_ms
    rw [hfloor]
    decide
  refine ⟨h, ?_, ?_⟩
  · unfold spec_segment_size_ms
    rw [hfloor]
    decide
  · simp only [split_audio_file]
    rw [if_pos h]

/-- C3 witness: the sizing formulas evaluated on the spec's worked example. -/
theorem segment_sizing_formulas_witness :
    segment_size_ms 100000 1000 25000000 ≠ 0 ∧
    (∃ segs, split_audio_file 100000 1000 25000000 = some segs ∧
      segs.length = (100000 + segment_size_ms 100000 1000 25000000 - 1)
        / segment_size_ms 100000 1000 25000000 ∧
      100000 ≤ segs.length * segment_size_ms 100000 1000 25000000 ∧
      (segs.length - 1) * segment_size_ms 100000 1000 25000000 < 100000) := by
  have h0 : segment_size_ms 100000 1000 25000000 ≠ 0 := by
    rw [segment_size_ms_example]
    decide
  exact ⟨h0, (segment_sizing_formulas 100000 1000 25000000).2.2 h0⟩

/-- C5 (amended): in a segmented run of at least two segments where exactly
one remote call fails and some segment succeeds with text containing a
non-whitespace character, the run completes, exactly one per-segment failure
is recorded, and the final transcript is non-empty.  (The unamended claim,
with merely "non-empty text", fails: a successful fragment consisting only
of whitespace is erased by the final strip; see the counterexample.) -/
theorem partial_failure_tolerance :
    ∀ env : RunEnv,
      ¬ file_size_mb env.sizeBytes > (MAX_UPLOAD_SIZE_MB : ℚ) →
      ¬ file_size_mb env.sizeBytes ≤ (MAX_SEGMENT_SIZE_MB : ℚ) →
      env.primaryFail = none →
      2 ≤ env.primaryOutcomes.length →
      failed_segment_count env.primaryOutcomes = 1 →
      (∃ t, .ok t ∈ env.primaryOutcomes ∧ ∃ c ∈ t, c.isWhitespace = false) →
      ∃ res : RunResult, run env = .ok res ∧ res.failedSegmentCount = 1 ∧
        res.transcript ≠ [] := by
  intro env h1 h2 h3 hlen hcount hex
  obtain ⟨t, htmem, c, hc, hcws⟩ := hex
  refine ⟨⟨pyStrip (full_transcript_from [] env.primaryOutcomes),
    failed_segment_count env.primaryOutcomes⟩, ?_, hcount, ?_⟩
  · simp only [run, h3]
    rw [if_neg h1, if_neg h2]
  · show pyStrip (full_transcript_from [] env.primaryOutcomes) ≠ []
    rw [Ne, pyStrip_eq_nil_iff]
    intro hall
    have hcmem : c ∈ full_transcript_from [] env.primaryOutcomes := by
      rw [full_transcript_from_eq, List.nil_append, List.mem_flatten]
      refine ⟨transcribe_segment (.ok t) ++ [' '], List.mem_map.mpr ⟨.ok t, htmem, rfl⟩, ?_⟩
      exact List.mem_append_left _ hc
    have hws := hall c hcmem
    rw [hcws] at hws
    cases hws

/-- C5 counterexample: two segments, exactly one fails, the other succeeds
with the non-empty text `" "` — the run completes and records one failure,
but the final transcript is empty because the strip erases the whitespace,
contradicting the claim's promised non-empty transcript. -/
theorem partial_failure_whitespace_counterexample :
    2 ≤ ([(.error .other : RemoteResult), .ok [' ']]).length ∧
    failed_segment_count [(.error .other : RemoteResult), .ok [' ']] = 1 ∧
    (.ok [' '] : RemoteResult) ∈ [(.error .other : RemoteResult), .ok [' ']] ∧
    ([' '] : PyStr) ≠ [] ∧
    run ⟨26 * BYTES_PER_MB, .ok [], none, [.error .other, .ok [' ']], false, []⟩
      = .ok ⟨[], 1⟩ := by
  refine ⟨by decide, by decide, by simp, by simp, ?_⟩
  have h1 : ¬ file_size_mb (26 * BYTES_PER_MB) > (MAX_UPLOAD_SIZE_MB : ℚ) := by
    rw [file_size_mb_gt_iff]; decide
  have h2 : ¬ file_size_mb (26 * BYTES_PER_MB) ≤ (MAX_SEGMENT_SIZE_MB : ℚ) := by
    rw [file_size_mb_le_iff]; decide
  simp only [run]
  rw [if_neg h1, if_neg h2]
  rfl

/-- C5 witness: a concrete two-segment run with one failure and one
non-whitespace success, evaluated through the theorem. -/
theorem partial_failure_tolerance_witness :
    ∃ res : RunResult,
      run ⟨26 * BYTES_PER_MB, .ok [], none, [.error .other, .ok ['h', 'i']], false, []⟩
        = .ok res ∧ res.failedSegmentCount = 1 ∧ res.transcript ≠ [] :=
  partial_failure_tolerance
    ⟨26 * BYTES_PER_MB, .ok [], none, [.error .other, .ok ['h', 'i']], false, []⟩
    (by rw [file_size_mb_gt_iff]; decide)
    (by rw [file_size_mb_le_iff]; decide)
    rfl
    (by decide)
    (by decide)
    ⟨['h', 'i'], by simp, 'h', by simp, by decide⟩

/-- C6: when the primary split raises, the nested try/except structure makes
exactly one fallback attempt — never a second — and the fallback's plan uses
the fixed 5-minute wall-clock segment length, taking no byte-budget input;
if the fallback block also raises, the run terminates as a failure. -/
theorem fallback_single_attempt :
    ∀ (env : RunEnv) (pre : List RemoteResult),
      ¬ file_size_mb env.sizeBytes > (MAX_UPLOAD_SIZE_MB : ℚ) →
      ¬ file_size_mb env.sizeBytes ≤ (MAX_SEGMENT_SIZE_MB : ℚ) →
      env.primaryFail = some pre →
      splitAttempts env = [.primary, .fallback] ∧
      (splitAttempts env).count .fallback = 1 ∧
      (env.fallbackFail = true → run env = .error .bothSplitsFailed) ∧
      (env.fallbackFail = false →
        run env = .ok ⟨pyStrip (full_transcript_from [] env.fallbackOutcomes),
          failed_segment_count env.fallbackOutcomes⟩) ∧
      (∀ d : ℕ, ∀ s ∈ fallbackPlan d,
        s.startMs = s.index * segment_length_ms ∧
        s.endMs = min ((s.index + 1) * segment_length_ms) d ∧
        s.endMs - s.startMs ≤ 5 * 60 * 1000) := by
  intro env pre h1 h2 h3
  have hattempts : splitAttempts env = [.primary, .fallback] := by
    simp only [splitAttempts, h3]
    rw [if_neg h1, if_neg h2]
  refine ⟨hattempts, by rw [hattempts]; decide, ?_, ?_, ?_⟩
  · intro h4
    simp only [run, h3]
    rw [if_neg h1, if_neg h2, if_pos h4]
  · intro h4
    simp only [run, h3, fallbackBlockTranscript]
    rw [if_neg h1, if_neg h2, if_neg (by rw [h4]; exact Bool.false_ne_true)]
  · intro d s hs
    simp only [fallbackPlan, List.mem_map, List.mem_range] at hs
    obtain ⟨i, hi, rfl⟩ := hs
    refine ⟨rfl, rfl, ?_⟩
    show min ((i + 1) * segment_length_ms) d - i * segment_length_ms ≤ 5 * 60 * 1000
    have h5 : (i + 1) * segment_length_ms = i * segment_length_ms + segment_length_ms := by
      ring
    have h6 : min ((i + 1) * segment_length_ms) d ≤ (i + 1) * segment_length_ms :=
      Nat.min_le_left _ _
    have h7 : segment_length_ms = 5 * 60 * 1000 := rfl
    omega

/-- C6 witness: a run whose primary split raises at once; the one fallback
attempt succeeds with a single segment. -/
theorem fallback_single_attempt_witness :
    splitAttempts ⟨26 * BYTES_PER_MB, .ok [], some [], [], false, [.ok ['a']]⟩
      = [.primary, .fallback] ∧
    run ⟨26 * BYTES_PER_MB, .ok [], some [], [], false, [.ok ['a']]⟩
      = .ok ⟨pyStrip (full_transcript_from [] [.ok ['a']]),
        failed_segment_count [.ok ['a']]⟩ := by
  have h := fallback_single_attempt
    ⟨26 * BYTES_PER_MB, .ok [], some [], [], false, [.ok ['a']]⟩ []
    (by rw [file_size_mb_gt_iff]; decide)
    (by rw [file_size_mb_le_iff]; decide)
    rfl
  exact ⟨h.1, h.2.2.2.1 rfl⟩

/-- C8: a request of exactly the per-segment byte budget takes the
single-shot path (the comparison is `≤`); a request of exactly the upload
ceiling is accepted and processed; a request one byte over the ceiling is
rejected pre-flight as oversize, whatever the rest of the run environment. -/
theorem boundary_size_cases :
    file_size_mb (MAX_SEGMENT_SIZE_MB * BYTES_PER_MB) ≤ (MAX_SEGMENT_SIZE_MB : ℚ) ∧
    run ⟨MAX_SEGMENT_SIZE_MB * BYTES_PER_MB, .ok ['a'], some [], [], true, []⟩
      = .ok ⟨['a'], 0⟩ ∧
    ¬ file_size_mb (MAX_UPLOAD_SIZE_MB * BYTES_PER_MB) > (MAX_UPLOAD_SIZE_MB : ℚ) ∧
    run ⟨MAX_UPLOAD_SIZE_MB * BYTES_PER_MB, .error .other, none, [.ok ['a']], false, []⟩
      = .ok ⟨['a'], 0⟩ ∧
    file_size_mb (MAX_UPLOAD_SIZE_MB * BYTES_PER_MB + 1) > (MAX_UPLOAD_SIZE_MB : ℚ) ∧
    (∀ env : RunEnv, env.sizeBytes = MAX_UPLOAD_SIZE_MB * BYTES_PER_MB + 1 →
      run env = .error .oversize) := by
  refine ⟨?_, ?_, ?_, ?_, ?_, ?_⟩
  · rw [file_size_mb_le_iff]
  · have h1 : ¬ file_size_mb (MAX_SEGMENT_SIZE_MB * BYTES_PER_MB)
        > (MAX_UPLOAD_SIZE_MB : ℚ) := by
      rw [file_size_mb_gt_iff]; decide
    have h2 : file_size_mb (MAX_SEGMENT_SIZE_MB * BYTES_PER_MB)
        ≤ (MAX_SEGMENT_SIZE_MB : ℚ) := by
      rw [file_size_mb_le_iff]
    simp only [run]
    rw [if_neg h1, if_pos h2]
    rfl
  · rw [file_size_mb_gt_iff]; decide
  · have h1 : ¬ file_size_mb (MAX_UPLOAD_SIZE_MB * BYTES_PER_MB)
        > (MAX_UPLOAD_SIZE_MB : ℚ) := by
      rw [file_size_mb_gt_iff]; decide
    have h2 : ¬ file_size_mb (MAX_UPLOAD_SIZE_MB * BYTES_PER_MB)
        ≤ (MAX_SEGMENT_SIZE_MB : ℚ) := by
      rw [file_size_mb_le_iff]; decide
    simp only [run]
    rw [if_neg h1, if_neg h2]
    rfl
  · rw [file_size_mb_gt_iff]; decide
  · intro env he
    have h1 : file_size_mb env.sizeBytes > (MAX_UPLOAD_SIZE_MB : ℚ) := by
      rw [file_size_mb_gt_iff, he]; decide
    simp only [run]
    rw [if_pos h1]

/-- C8 witness: the over-by-one request is rejected whatever the oracle
outcomes are. -/
theorem boundary_size_cases_witness :
    run ⟨MAX_UPLOAD_SIZE_MB * BYTES_PER_MB + 1, .ok ['a'], none, [.ok ['a']], false, []⟩
      = .error .oversize :=
  boundary_size_cases.2.2.2.2.2 _ rfl

/-- Every completed primary-loop iteration ends by removing its segment's
artifact, whatever the index offset of the enumeration. -/
lemma primaryLoopEventsFrom_removed (outcomes : List RemoteResult) :
    ∀ base j : ℕ, j < outcomes.length →
      LoopEvent.artifactRemoved (base + j) ∈ primaryLoopEventsFrom base outcomes := by
  induction outcomes with
  | nil => intro base j hj; exact absurd hj (Nat.not_lt_zero j)
  | cons r rest ih =>
    intro base j hj
    cases j with
    | zero =>
      apply List.mem_append_left
      cases hr : segmentFailed r <;> simp [primaryIterationEvents, hr]
    | succ k =>
      apply List.mem_append_right
      have h := ih (base + 1) k (by simpa using Nat.lt_of_succ_lt_succ hj)
      have harith : base + (k + 1) = base + 1 + k := by omega
      rw [harith]
      exact h

/-- Same fact for the fallback loop. -/
lemma fallbackLoopEventsFrom_removed (outcomes : List RemoteResult) :
    ∀ base j : ℕ, j < outcomes.length →
      LoopEvent.artifactRemoved (base + j) ∈ fallbackLoopEventsFrom base outcomes := by
  induction outcomes with
  | nil => intro base j hj; exact absurd hj (Nat.not_lt_zero j)
  | cons r rest ih =>
    intro base j hj
    cases j with
    | zero =>
      apply List.mem_append_left
      cases hr : segmentFailed r <;> simp [fallbackIterationEvents, hr]
    | succ k =>
      apply List.mem_append_right
      have h := ih (base + 1) k (by simpa using Nat.lt_of_succ_lt_succ hj)
      have harith : base + (k + 1) = base + 1 + k := by omega
      rw [harith]
      exact h

/-- C9: in both transcription loops, each iteration's very last event is the
unconditional `os.remove` of that segment's artifact — on the success and on
the failure outcome of the attempt alike, after the attempt — and
consequently every segment of every run has its artifact removed. -/
theorem artifact_removed_on_every_outcome :
    (∀ (i : ℕ) (r : RemoteResult), ∃ pre,
      primaryIterationEvents i r = pre ++ [.artifactRemoved i] ∧
      LoopEvent.transcribeAttempt i ∈ pre) ∧
    (∀ (i : ℕ) (r : RemoteResult), ∃ pre,
      fallbackIterationEvents i r = pre ++ [.artifactRemoved i] ∧
      LoopEvent.artifactCreated i ∈ pre ∧ LoopEvent.transcribeAttempt i ∈ pre) ∧
    (∀ (outcomes : List RemoteResult) (i : ℕ), i < outcomes.length →
      LoopEvent.artifactRemoved i ∈ primaryLoopEvents outcomes) ∧
    (∀ (outcomes : List RemoteResult) (i : ℕ), i < outcomes.length →
      LoopEvent.artifactRemoved i ∈ fallbackLoopEvents outcomes) := by
  refine ⟨?_, ?_, ?_, ?_⟩
  · intro i r
    cases hr : segmentFailed r
    · exact ⟨[.transcribeAttempt i], by simp [primaryIterationEvents, hr], by simp⟩
    · exact ⟨[.transcribeAttempt i, .errorReported i],
        by simp [primaryIterationEvents, hr], by simp⟩
  · intro i r
    cases hr : segmentFailed r
    · exact ⟨[.artifactCreated i, .transcribeAttempt i],
        by simp [fallbackIterationEvents, hr], by simp, by simp⟩
    · exact ⟨[.artifactCreated i, .transcribeAttempt i, .errorReported i],
        by simp [fallbackIterationEvents, hr], by simp, by simp⟩
  · intro outcomes i hi
    have h := primaryLoopEventsFrom_removed outcomes 0 i hi
    simpa [primaryLoopEvents] using h
  · intro outcomes i hi
    have h := fallbackLoopEventsFrom_removed outcomes 0 i hi
    simpa [fallbackLoopEvents] using h

/-- C9 witness: both segments of a two-segment loop (one success, one
failure) have their artifacts removed. -/
theorem artifact_removed_on_every_outcome_witness :
    1 < ([(.ok ['a'] : RemoteResult), .error .other]).length ∧
    LoopEvent.artifactRemoved 1 ∈ primaryLoopEvents [.ok ['a'], .error .other] ∧
    LoopEvent.artifactRemoved 1 ∈ fallbackLoopEvents [.ok ['a'], .error .other] :=
  ⟨by decide,
   artifact_removed_on_every_outcome.2.2.1 [.ok ['a'], .error .other] 1 (by decide),
   artifact_removed_on_every_outcome.2.2.2 [.ok ['a'], .error .other] 1 (by decide)⟩

/-- Each primary-loop progress value lies in `[1/10, 9/10]`. -/
lemma primaryLoopProgress_bounds (n : ℕ) (p : ℚ) (hp : p ∈ primaryLoopProgress n) :
    1/10 ≤ p ∧ p ≤ 9/10 := by
  unfold primaryLoopProgress at hp
  obtain ⟨i, hi, rfl⟩ := List.mem_map.mp hp
  rw [List.mem_range] at hi
  have hn : 0 < n := lt_of_le_of_lt (Nat.zero_le i) hi
  have hn' : (0 : ℚ) < (n : ℚ) := by exact_mod_cast hn
  have h0 : (0 : ℚ) ≤ (i : ℚ) / (n : ℚ) := div_nonneg (by positivity) (le_of_lt hn')
  have h1 : (i : ℚ) / (n : ℚ) ≤ 1 := by
    rw [div_le_one hn']
    exact_mod_cast le_of_lt hi
  constructor <;> nlinarith

/-- Each fallback-loop progress value lies in `[1/10, 9/10]`. -/
lemma fallbackLoopProgress_bounds (m : ℕ) (p : ℚ) (hp : p ∈ fallbackLoopProgress m) :
    1/10 ≤ p ∧ p ≤ 9/10 := by
  unfold fallbackLoopProgress at hp
  rw [List.mem_flatten] at hp
  obtain ⟨l, hl, hpl⟩ := hp
  obtain ⟨i, hi, rfl⟩ := List.mem_map.mp hl
  rw [List.mem_range] at hi
  have hm : 0 < m := lt_of_le_of_lt (Nat.zero_le i) hi
  have hm' : (0 : ℚ) < (m : ℚ) := by exact_mod_cast hm
  have h0 : (0 : ℚ) ≤ (i : ℚ) / (m : ℚ) := div_nonneg (by positivity) (le_of_lt hm')
  have h1 : (i : ℚ) / (m : ℚ) ≤ 1 := by
    rw [div_le_one hm']
    exact_mod_cast le_of_lt hi
  simp only [List.mem_cons, List.not_mem_nil, or_false] at hpl
  rcases hpl with rfl | rfl
  · constructor <;> nlinarith
  · constructor <;> nlinarith

/-- The primary loop's progress values are emitted in non-decreasing order. -/
lemma primaryLoopProgress_sorted (n : ℕ) :
    (primaryLoopProgress n).Sorted (· ≤ ·) := by
  unfold primaryLoopProgress
  refine List.Pairwise.map _ ?_ (List.pairwise_lt_range n)
  intro a b hab
  by_cases hn : n = 0
  · subst hn
    simp
  · have hn' : (0 : ℚ) < (n : ℚ) := by exact_mod_cast Nat.pos_of_ne_zero hn
    have h : (a : ℚ) / (n : ℚ) ≤ (b : ℚ) / (n : ℚ) := by
      rw [div_le_div_iff_of_pos_right hn']
      exact_mod_cast le_of_lt hab
    nlinarith

/-- C7 (amended): every progress value emitted on any path — single-shot,
primary, or fallback (even after a partial primary loop) — lies in `[0, 1]`,
and the single-shot and primary paths emit monotonically non-decreasing
sequences.  (The unamended monotonicity claim fails on the fallback path;
see the counterexample.) -/
theorem progress_in_range_and_primary_monotone :
    (∀ p ∈ singleShotTrace, 0 ≤ p ∧ p ≤ 1) ∧
    (∀ n : ℕ, ∀ p ∈ primaryPathTrace n, 0 ≤ p ∧ p ≤ 1) ∧
    (∀ k n m : ℕ, ∀ p ∈ fallbackPathTrace k n m, 0 ≤ p ∧ p ≤ 1) ∧
    singleShotTrace.Sorted (· ≤ ·) ∧
    (∀ n : ℕ, (primaryPathTrace n).Sorted (· ≤ ·)) := by
  refine ⟨?_, ?_, ?_, ?_, ?_⟩
  · intro p hp
    simp only [singleShotTrace, List.mem_cons, List.not_mem_nil, or_false] at hp
    rcases hp with rfl | rfl | rfl | rfl <;> norm_num
  · intro n p hp
    unfold primaryPathTrace at hp
    rcases List.mem_append.mp hp with h | h
    · rcases List.mem_append.mp h with h2 | h2
      · simp only [List.mem_cons, List.not_mem_nil, or_false] at h2
        rcases h2 with rfl | rfl <;> norm_num
      · have hb := primaryLoopProgress_bounds n p h2
        constructor <;> linarith [hb.1, hb.2]
    · simp only [List.mem_cons, List.not_mem_nil, or_false] at h
      rcases h with rfl | rfl <;> norm_num
  · intro k n m p hp
    unfold fallbackPathTrace at hp
    rcases List.mem_append.mp hp with h | h
    · rcases List.mem_append.mp h with h2 | h2
      · rcases List.mem_append.mp h2 with h3 | h3
        · simp only [List.mem_cons, List.not_mem_nil, or_false] at h3
          rcases h3 with rfl | rfl <;> norm_num
        · have hb := primaryLoopProgress_bounds n p (List.take_subset k _ h3)
          constructor <;> linarith [hb.1, hb.2]
      · have hb := fallbackLoopProgress_bounds m p h2
        constructor <;> linarith [hb.1, hb.2]
    · simp only [List.mem_cons, List.not_mem_nil, or_false] at h
      rcases h with rfl
      norm_num
  · unfold singleShotTrace
    refine List.pairwise_cons.mpr ⟨?_, List.pairwise_cons.mpr ⟨?_,
      List.pairwise_cons.mpr ⟨?_, List.pairwise_cons.mpr
        ⟨fun b hb => absurd hb (List.not_mem_nil b), List.Pairwise.nil⟩⟩⟩⟩
    · intro b hb
      simp only [List.mem_cons, List.not_mem_nil, or_false] at hb
      rcases hb with rfl | rfl | rfl <;> norm_num
    · intro b hb
      simp only [List.mem_cons, List.not_mem_nil, or_false] at hb
      rcases hb with rfl | rfl <;> norm_num
    · intro b hb
      simp only [List.mem_cons, List.not_mem_nil, or_false] at hb
      rcases hb with rfl
      norm_num
  · intro n
    unfold primaryPathTrace
    rw [List.Sorted, List.pairwise_append]
    refine ⟨?_, ?_, ?_⟩
    · rw [List.pairwise_append]
      refine ⟨?_, primaryLoopProgress_sorted n, ?_⟩
      · refine List.pairwise_cons.mpr ⟨?_, List.pairwise_cons.mpr
          ⟨fun b hb => absurd hb (List.not_mem_nil b), List.Pairwise.nil⟩⟩
        intro b hb
        simp only [List.mem_cons, List.not_mem_nil, or_false] at hb
        rcases hb with rfl
        norm_num
      · intro a ha b hb
        have h1 := (primaryLoopProgress_bounds n b hb).1
        simp only [List.mem_cons, List.not_mem_nil, or_false] at ha
        rcases ha with rfl | rfl <;> linarith
    · refine List.pairwise_cons.mpr ⟨?_, List.pairwise_cons.mpr
        ⟨fun b hb => absurd hb (List.not_mem_nil b), List.Pairwise.nil⟩⟩
      intro b hb
      simp only [List.mem_cons, List.not_mem_nil, or_false] at hb
      rcases hb with rfl
      norm_num
    · intro a ha b hb
      have ha' : a ≤ 9/10 := by
        rcases List.mem_append.mp ha with h | h
        · simp only [List.mem_cons, List.not_mem_nil, or_false] at h
          rcases h with rfl | rfl <;> norm_num
        · exact (primaryLoopProgress_bounds n a h).2
      simp only [List.mem_cons, List.not_mem_nil, or_false] at hb
      rcases hb with rfl | rfl <;> linarith

/-- C7 counterexample: a run that enters the fallback with two fallback
segments (no primary-loop iterations) emits the progress sequence
`0, 0.1, 0.1, 0.5, 0.3, 0.7, 1` — the export-phase value of fallback
segment 1 (`0.3`) is below the transcription-phase value of fallback
segment 0 (`0.5`), so the sequence is not monotonically non-decreasing. -/
theorem fallback_progress_not_monotone :
    ¬ (fallbackPathTrace 0 0 2).Sorted (· ≤ ·) := by
  have hval : fallbackPathTrace 0 0 2 = [0, 1/10, 1/10, 1/2, 3/10, 7/10, 1] := by
    simp [fallbackPathTrace, fallbackLoopProgress, primaryLoopProgress, List.range_succ]
    norm_num
  rw [hval]
  simp [List.Sorted, List.pairwise_cons]
  norm_num

/-- C7 witness: the bound applied to the final value of the single-shot
trace. -/
theorem progress_in_range_witness :
    (1 : ℚ) ∈ singleShotTrace ∧ (0 ≤ (1 : ℚ) ∧ (1 : ℚ) ≤ 1) :=
  ⟨by simp [singleShotTrace],
   progress_in_range_and_primary_monotone.1 1 (by simp [singleShotTrace])⟩
